import Mathlib

/-!
Verification of the geocoordinate / IDW-interpolation subsystem of the
ODaX Open Data eXplorer repository, shallowly embedded from
src/imping/nabel_airquality/lib_geocoordinates.py.

Modelling conventions:
  - Python floats are modelled as real numbers; the NaN missing-value
    sentinel of a station-value column is modelled as Option.none, so a
    value column of the stations DataFrame is a function String → Option ℝ
    and the float return value of idw_interpolate is an Option ℝ whose
    none case is np.nan.  IEEE rounding and the non-NaN special values are
    not modelled on this side.
  - np.argsort(dists) (default kind, i.e. introsort) is modelled by a
    function parameter argsortFn : List ℝ → List ℕ together with the
    predicate IsArgsortOf stating exactly numpy's documented contract for
    the default kind: the result is a permutation of the index range that
    sorts the distances in non-decreasing order.  The default kind does
    NOT document (nor implement) a stable order among equal keys, so any
    contract-compliant argsortFn is a faithful instantiation; stableArgsort
    below is one such instantiation (the stable one), argsortBad is
    another (contract-compliant but tie-unstable).
  - Python strings are modelled as lists of characters (ASCII fragment:
    the Unicode digit/whitespace folding of Python's float() is outside
    the model).
-/

/-- A row of the stations_df DataFrame passed to idw_interpolate: the
columns WGS84_Latitude and WGS84_Longitude, plus the named value columns.
A NaN entry of a value column is Option.none.  (The value-column map is
total: a looked-up column is assumed to exist, possibly all-NaN.) -/
structure Station where
  lat : ℝ
  lon : ℝ
  values : String → Option ℝ

/-- Distance of one station from the target, from the source line
dists = np.sqrt((coords[:, 0] - target_lat) ** 2 + (coords[:, 1] - target_lon) ** 2). -/
noncomputable def stationDist (target_lat target_lon : ℝ) (s : Station) : ℝ :=
  Real.sqrt ((s.lat - target_lat) ^ 2 + (s.lon - target_lon) ^ 2)

/-- The dists array: one Euclidean degree-distance per station, in row order. -/
noncomputable def dists (stations_df : List Station) (target_lat target_lon : ℝ) : List ℝ :=
  stations_df.map (stationDist target_lat target_lon)

/-- The exact-coincidence short-circuit of idw_interpolate:
if np.any(dists == 0): return stations_df.loc[dists == 0, value_col].iloc[0]
i.e. the first station (in row order) at distance exactly 0, if any. -/
noncomputable def firstZeroDist (target_lat target_lon : ℝ) : List Station → Option Station
  | [] => Option.none
  | s :: rest =>
    if stationDist target_lat target_lon s = 0 then some s
    else firstZeroDist target_lat target_lon rest

/-- The documented contract of np.argsort for the default kind: the output
is a permutation of range(len(dists)) along which dists is non-decreasing.
Stability among equal keys is NOT part of the contract (numpy guarantees it
only for kind equal to stable or mergesort). -/
def IsArgsortOf (ds : List ℝ) (idxs : List ℕ) : Prop :=
  idxs.Perm (List.range ds.length) ∧
  idxs.Pairwise (fun i j => ds.getD i 0 ≤ ds.getD j 0)

/-- nearest_idx = np.argsort(dists)[:k]. -/
def nearest_idx (argsortFn : List ℝ → List ℕ) (ds : List ℝ) (k : ℕ) : List ℕ :=
  (argsortFn ds).take k

/-- The k selected station rows, stations_df.iloc[nearest_idx]. -/
noncomputable def nearestStations (argsortFn : List ℝ → List ℕ) (stations_df : List Station)
    (target_lat target_lon : ℝ) (k : ℕ) : List Station :=
  (nearest_idx argsortFn (dists stations_df target_lat target_lon) k).filterMap
    (fun i => stations_df[i]?)

/-- The surviving (distance, value) pairs after the NaN filter
valid_mask = ~np.isnan(nearest_values): one pair per selected station whose
value_col entry is defined, keeping (valid_dists, valid_values) aligned. -/
noncomputable def validPairs (argsortFn : List ℝ → List ℕ) (stations_df : List Station)
    (target_lat target_lon : ℝ) (value_col : String) (k : ℕ) : List (ℝ × ℝ) :=
  (nearestStations argsortFn stations_df target_lat target_lon k).filterMap
    (fun s => (s.values value_col).map (fun v => (stationDist target_lat target_lon s, v)))

/-- weights.sum() for the raw inverse-distance weights weights = 1 / (valid_dists ** power). -/
noncomputable def rawWeightSum (argsortFn : List ℝ → List ℕ) (stations_df : List Station)
    (target_lat target_lon : ℝ) (value_col : String) (k : ℕ) (power : ℤ) : ℝ :=
  ((validPairs argsortFn stations_df target_lat target_lon value_col k).map
    (fun p => 1 / p.1 ^ power)).sum

/-- The normalized weights after weights /= weights.sum(). -/
noncomputable def normWeights (argsortFn : List ℝ → List ℕ) (stations_df : List Station)
    (target_lat target_lon : ℝ) (value_col : String) (k : ℕ) (power : ℤ) : List ℝ :=
  (validPairs argsortFn stations_df target_lat target_lon value_col k).map
    (fun p => 1 / p.1 ^ power /
      rawWeightSum argsortFn stations_df target_lat target_lon value_col k power)

/-- idw_interpolate of lib_geocoordinates.py.  k is the number of nearest
stations (the contract requires k at least 1, so it is taken as a natural
number); power is the Python int IDW exponent.  Returns Option.none exactly
where the source returns np.nan with no station at distance 0. -/
noncomputable def idw_interpolate (argsortFn : List ℝ → List ℕ) (stations_df : List Station)
    (target_lat target_lon : ℝ) (value_col : String) (k : ℕ) (power : ℤ) : Option ℝ :=
  match firstZeroDist target_lat target_lon stations_df with
  | some s => s.values value_col
  | Option.none =>
    if validPairs argsortFn stations_df target_lat target_lon value_col k = [] then
      Option.none
    else
      some (((validPairs argsortFn stations_df target_lat target_lon value_col k).map
        (fun p => 1 / p.1 ^ power /
          rawWeightSum argsortFn stations_df target_lat target_lon value_col k power * p.2)).sum)

/-- Insertion step of the stable reference argsort: index i is placed after
every already-present index whose key is strictly smaller, hence before any
equal-keyed index that came later in the fold below. -/
noncomputable def insertByDist (ds : List ℝ) (i : ℕ) : List ℕ → List ℕ
  | [] => [i]
  | j :: rest =>
    if ds.getD j 0 < ds.getD i 0 then j :: insertByDist ds i rest
    else i :: j :: rest

/-- Stable insertion argsort over an index list (folding from the right, so
earlier indices are inserted last and land before equal-keyed later ones). -/
noncomputable def insertionArgsort (ds : List ℝ) : List ℕ → List ℕ
  | [] => []
  | i :: rest => insertByDist ds i (insertionArgsort ds rest)

/-- The stable instantiation of np.argsort's contract (what np.argsort with
kind equal to stable would compute). -/
noncomputable def stableArgsort (ds : List ℝ) : List ℕ :=
  insertionArgsort ds (List.range ds.length)

/-- A contract-compliant but tie-unstable instantiation of np.argsort's
contract: on a two-element list of equal keys it returns the indices in
reversed order (as numpy's default introsort actually does on larger
all-equal inputs), elsewhere it agrees with stableArgsort. -/
noncomputable def argsortBad (ds : List ℝ) : List ℕ :=
  if ds.length = 2 ∧ ds.getD 0 0 = ds.getD 1 0 then [1, 0] else stableArgsort ds

/-- Formalization of the tie-break rule claimed by the specification: among
equal-distance indices, the earlier one is selected whenever the later one is. -/
def StableTieBreak (argsortFn : List ℝ → List ℕ) : Prop :=
  ∀ (ds : List ℝ) (k i j : ℕ), i < j → j < ds.length →
    ds.getD i 0 = ds.getD j 0 →
    j ∈ nearest_idx argsortFn ds k → i ∈ nearest_idx argsortFn ds k

lemma insertByDist_perm (ds : List ℝ) (i : ℕ) :
    ∀ l : List ℕ, (insertByDist ds i l).Perm (i :: l) := by
  intro l
  induction l with
  | nil => simp [insertByDist]
  | cons j rest ih =>
    rw [insertByDist]
    by_cases h : ds.getD j 0 < ds.getD i 0
    · rw [if_pos h]
      exact (ih.cons j).trans (List.Perm.swap i j rest)
    · rw [if_neg h]

lemma insertionArgsort_perm (ds : List ℝ) :
    ∀ l : List ℕ, (insertionArgsort ds l).Perm l := by
  intro l
  induction l with
  | nil => simp [insertionArgsort]
  | cons i rest ih =>
    rw [insertionArgsort]
    exact (insertByDist_perm ds i _).trans (ih.cons i)

lemma insertByDist_pairwise (ds : List ℝ) (i : ℕ) :
    ∀ l : List ℕ, l.Pairwise (fun a b => ds.getD a 0 ≤ ds.getD b 0) →
      (insertByDist ds i l).Pairwise (fun a b => ds.getD a 0 ≤ ds.getD b 0) := by
  intro l
  induction l with
  | nil => intro _; simp [insertByDist]
  | cons j rest ih =>
    intro h
    rw [List.pairwise_cons] at h
    rw [insertByDist]
    by_cases hc : ds.getD j 0 < ds.getD i 0
    · rw [if_pos hc]
      rw [List.pairwise_cons]
      refine ⟨?_, ih h.2⟩
      intro x hx
      rcases List.mem_cons.mp (((insertByDist_perm ds i rest).mem_iff).mp hx) with hx | hx
      · exact le_of_lt (by simpa [hx] using hc)
      · exact h.1 x hx
    · rw [if_neg hc]
      rw [List.pairwise_cons]
      refine ⟨?_, List.pairwise_cons.mpr h⟩
      intro x hx
      rcases List.mem_cons.mp hx with hx | hx
      · simpa [hx] using not_lt.mp hc
      · exact le_trans (not_lt.mp hc) (h.1 x hx)

lemma insertionArgsort_pairwise (ds : List ℝ) :
    ∀ l : List ℕ, (insertionArgsort ds l).Pairwise (fun a b => ds.getD a 0 ≤ ds.getD b 0) := by
  intro l
  induction l with
  | nil => simp [insertionArgsort]
  | cons i rest ih =>
    rw [insertionArgsort]
    exact insertByDist_pairwise ds i _ ih

theorem stableArgsort_valid : ∀ ds : List ℝ, IsArgsortOf ds (stableArgsort ds) := by
  intro ds
  exact ⟨insertionArgsort_perm ds _, insertionArgsort_pairwise ds _⟩

theorem argsortBad_valid : ∀ ds : List ℝ, IsArgsortOf ds (argsortBad ds) := by
  intro ds
  rw [argsortBad]
  by_cases h : ds.length = 2 ∧ ds.getD 0 0 = ds.getD 1 0
  · rw [if_pos h]
    constructor
    · rw [h.1]
      exact List.Perm.swap 0 1 []
    · rw [List.pairwise_cons]
      exact ⟨fun x hx => by rcases List.mem_singleton.mp hx with rfl; exact le_of_eq h.2.symm,
        by simp⟩
  · rw [if_neg h]
    exact stableArgsort_valid ds

lemma firstZeroDist_eq_none_iff (target_lat target_lon : ℝ) (df : List Station) :
    firstZeroDist target_lat target_lon df = Option.none ↔
      ∀ s ∈ df, stationDist target_lat target_lon s ≠ 0 := by
  induction df with
  | nil => simp [firstZeroDist]
  | cons s rest ih =>
    by_cases h : stationDist target_lat target_lon s = 0
    · rw [firstZeroDist, if_pos h]
      simp only [List.mem_cons]
      constructor
      · intro hc; exact absurd hc (by simp)
      · intro hall; exact absurd h (hall s (Or.inl rfl))
    · rw [firstZeroDist, if_neg h, ih]
      constructor
      · intro hall t ht
        rcases List.mem_cons.mp ht with rfl | ht
        · exact h
        · exact hall t ht
      · intro hall t ht; exact hall t (List.mem_cons_of_mem s ht)

lemma mem_of_nearestStations {argsortFn : List ℝ → List ℕ} {stations_df : List Station}
    {target_lat target_lon : ℝ} {k : ℕ} {s : Station}
    (hs : s ∈ nearestStations argsortFn stations_df target_lat target_lon k) :
    s ∈ stations_df := by
  rw [nearestStations, List.mem_filterMap] at hs
  obtain ⟨i, _, hi⟩ := hs
  obtain ⟨hlt, rfl⟩ := List.getElem?_eq_some_iff.mp hi
  exact List.getElem_mem hlt

lemma validPairs_mem {argsortFn : List ℝ → List ℕ} {stations_df : List Station}
    {target_lat target_lon : ℝ} {value_col : String} {k : ℕ} {p : ℝ × ℝ}
    (hp : p ∈ validPairs argsortFn stations_df target_lat target_lon value_col k) :
    ∃ s ∈ stations_df, stationDist target_lat target_lon s = p.1 ∧
      s.values value_col = some p.2 := by
  rw [validPairs, List.mem_filterMap] at hp
  obtain ⟨s, hs, hmap⟩ := hp
  refine ⟨s, mem_of_nearestStations hs, ?_⟩
  cases hv : s.values value_col with
  | none => rw [hv] at hmap; exact absurd hmap (by simp)
  | some v =>
    rw [hv] at hmap
    rw [Option.map_some', Option.some_inj] at hmap
    rw [← hmap]
    exact ⟨rfl, rfl⟩

lemma validPairs_pos {argsortFn : List ℝ → List ℕ} {stations_df : List Station}
    {target_lat target_lon : ℝ} {value_col : String} {k : ℕ}
    (hnc : firstZeroDist target_lat target_lon stations_df = Option.none) :
    ∀ p ∈ validPairs argsortFn stations_df target_lat target_lon value_col k, 0 < p.1 := by
  intro p hp
  obtain ⟨s, hsdf, hd, _⟩ := validPairs_mem hp
  have hne : stationDist target_lat target_lon s ≠ 0 :=
    (firstZeroDist_eq_none_iff target_lat target_lon stations_df).mp hnc s hsdf
  rw [← hd]
  exact lt_of_le_of_ne (Real.sqrt_nonneg _) (Ne.symm hne)

lemma rawWeightSum_pos {argsortFn : List ℝ → List ℕ} {stations_df : List Station}
    {target_lat target_lon : ℝ} {value_col : String} {k : ℕ} {power : ℤ}
    (hnc : firstZeroDist target_lat target_lon stations_df = Option.none)
    (hne : validPairs argsortFn stations_df target_lat target_lon value_col k ≠ []) :
    0 < rawWeightSum argsortFn stations_df target_lat target_lon value_col k power := by
  rw [rawWeightSum]
  apply List.sum_pos
  · intro x hx
    rw [List.mem_map] at hx
    obtain ⟨p, hp, hpx⟩ := hx
    rw [← hpx]
    exact one_div_pos.mpr (zpow_pos (validPairs_pos hnc p hp) power)
  · simpa using hne

lemma idw_no_coincidence {argsortFn : List ℝ → List ℕ} {stations_df : List Station}
    {target_lat target_lon : ℝ} {value_col : String} {k : ℕ} {power : ℤ}
    (hnc : firstZeroDist target_lat target_lon stations_df = Option.none) :
    idw_interpolate argsortFn stations_df target_lat target_lon value_col k power =
      if validPairs argsortFn stations_df target_lat target_lon value_col k = [] then
        Option.none
      else
        some (((validPairs argsortFn stations_df target_lat target_lon value_col k).map
          (fun p => 1 / p.1 ^ power /
            rawWeightSum argsortFn stations_df target_lat target_lon value_col k power * p.2)).sum) := by
  rw [idw_interpolate, hnc]

lemma firstZeroDist_eq_get (target_lat target_lon : ℝ) :
    ∀ (df : List Station) (i : ℕ) (hi : i < df.length),
      stationDist target_lat target_lon (df.get ⟨i, hi⟩) = 0 →
      (∀ j (hj : j < i), stationDist target_lat target_lon (df.get ⟨j, hj.trans hi⟩) ≠ 0) →
      firstZeroDist target_lat target_lon df = some (df.get ⟨i, hi⟩) := by
  intro df
  induction df with
  | nil => intro i hi; exact absurd hi (by simp)
  | cons s rest ih =>
    intro i hi h0 hfirst
    cases i with
    | zero =>
      simp only [List.get] at h0 ⊢
      rw [firstZeroDist, if_pos h0]
    | succ m =>
      have hs : stationDist target_lat target_lon s ≠ 0 := by
        have := hfirst 0 (Nat.succ_pos m)
        simpa [List.get] using this
      rw [firstZeroDist, if_neg hs]
      have hm : m < rest.length := Nat.succ_lt_succ_iff.mp hi
      simp only [List.get] at h0 ⊢
      refine ih m hm h0 ?_
      intro j hj
      have := hfirst (j + 1) (Nat.succ_lt_succ hj)
      simpa [List.get] using this

/-- Claim C1 (exact-coincidence rule): whatever the argsort instantiation,
the value field, k and power, if station i is at Euclidean degree-distance
exactly 0 from the target and no earlier station is, idw_interpolate
returns station i's stored value for the value field as-is — including
Option.none, the NaN sentinel — bypassing selection, NaN filtering and
weighting. -/
theorem idw_exact_coincidence (argsortFn : List ℝ → List ℕ) (stations_df : List Station)
    (target_lat target_lon : ℝ) (value_col : String) (k : ℕ) (power : ℤ)
    (i : ℕ) (hi : i < stations_df.length)
    (h0 : stationDist target_lat target_lon (stations_df.get ⟨i, hi⟩) = 0)
    (hfirst : ∀ j (hj : j < i),
      stationDist target_lat target_lon (stations_df.get ⟨j, hj.trans hi⟩) ≠ 0) :
    idw_interpolate argsortFn stations_df target_lat target_lon value_col k power =
      (stations_df.get ⟨i, hi⟩).values value_col := by
  rw [idw_interpolate, firstZeroDist_eq_get target_lat target_lon stations_df i hi h0 hfirst]

/-- Witness for C1, with the spec's exact-match scenario: stations
[(46.0, 7.0, 10.0), (46.5, 7.5, 20.0)], target (46.0, 7.0), k = 2,
power = 2 give 10.0. -/
theorem idw_exact_coincidence_witness :
    idw_interpolate stableArgsort
      [Station.mk 46 7 (fun _ => some 10), Station.mk 46.5 7.5 (fun _ => some 20)]
      46 7 "value" 2 2 = some 10 := by
  have h := idw_exact_coincidence stableArgsort
    [Station.mk 46 7 (fun _ => some 10), Station.mk 46.5 7.5 (fun _ => some 20)]
    46 7 "value" 2 2 0 (by norm_num)
    (by norm_num [stationDist, Real.sqrt_zero])
    (fun j hj => absurd hj (Nat.not_lt_zero j))
  simpa using h

/-- Claim C2, amended (nearest-k selection): for every contract-compliant
argsort instantiation, nearest_idx selects min(k, n) in-range indices,
scanned in non-decreasing distance order, and every selected index's
distance is at most every unselected index's distance.  Which equal-distance
indices enter the k-subset is NOT determined by the source (np.argsort's
default kind makes no stability promise), so only this much is provable. -/
theorem nearest_idx_spec (argsortFn : List ℝ → List ℕ)
    (hA : ∀ ds, IsArgsortOf ds (argsortFn ds)) (ds : List ℝ) (k : ℕ) :
    (nearest_idx argsortFn ds k).length = min k ds.length ∧
    (∀ i ∈ nearest_idx argsortFn ds k, i < ds.length) ∧
    (nearest_idx argsortFn ds k).Pairwise (fun i j => ds.getD i 0 ≤ ds.getD j 0) ∧
    ∀ i ∈ nearest_idx argsortFn ds k, ∀ j, j < ds.length →
      j ∉ nearest_idx argsortFn ds k → ds.getD i 0 ≤ ds.getD j 0 := by
  obtain ⟨hp, hs⟩ := hA ds
  have hlen : (argsortFn ds).length = ds.length := hp.length_eq.trans (List.length_range _)
  refine ⟨?_, ?_, ?_, ?_⟩
  · rw [nearest_idx, List.length_take, hlen]
  · intro i hi
    have hmem : i ∈ argsortFn ds := (List.take_sublist _ _).mem hi
    exact List.mem_range.mp (hp.mem_iff.mp hmem)
  · exact List.Pairwise.sublist (List.take_sublist _ _) hs
  · intro i hi j hjlt hjn
    have hjmem : j ∈ argsortFn ds := hp.mem_iff.mpr (List.mem_range.mpr hjlt)
    have hsplit : argsortFn ds = (argsortFn ds).take k ++ (argsortFn ds).drop k :=
      (List.take_append_drop k (argsortFn ds)).symm
    have hjdrop : j ∈ (argsortFn ds).drop k := by
      rw [hsplit] at hjmem
      rcases List.mem_append.mp hjmem with hj | hj
      · exact absurd hj hjn
      · exact hj
    have hpair := hs
    rw [hsplit, List.pairwise_append] at hpair
    exact hpair.2.2 i hi j hjdrop

/-- Claim C5 (k-saturation): for any contract-compliant argsort
instantiation, requesting more neighbours than there are stations gives the
same result as requesting exactly the station count; no error arises. -/
theorem idw_k_saturation (argsortFn : List ℝ → List ℕ)
    (hA : ∀ ds, IsArgsortOf ds (argsortFn ds)) (stations_df : List Station)
    (target_lat target_lon : ℝ) (value_col : String) (power : ℤ) (k : ℕ)
    (hk : stations_df.length < k) :
    idw_interpolate argsortFn stations_df target_lat target_lon value_col k power =
      idw_interpolate argsortFn stations_df target_lat target_lon value_col
        stations_df.length power := by
  have hlen : (argsortFn (dists stations_df target_lat target_lon)).length =
      stations_df.length := by
    rw [(hA _).1.length_eq, List.length_range, dists, List.length_map]
  have ht : nearest_idx argsortFn (dists stations_df target_lat target_lon) k =
      nearest_idx argsortFn (dists stations_df target_lat target_lon) stations_df.length := by
    rw [nearest_idx, nearest_idx, List.take_of_length_le (by omega),
      List.take_of_length_le (le_of_eq hlen)]
  have hvp : validPairs argsortFn stations_df target_lat target_lon value_col k =
      validPairs argsortFn stations_df target_lat target_lon value_col stations_df.length := by
    rw [validPairs, validPairs, nearestStations, nearestStations, ht]
  have hrw : rawWeightSum argsortFn stations_df target_lat target_lon value_col k power =
      rawWeightSum argsortFn stations_df target_lat target_lon value_col
        stations_df.length power := by
    rw [rawWeightSum, rawWeightSum, hvp]
  rw [idw_interpolate, idw_interpolate, hvp, hrw]

/-- Witness for C5: one station, k = 2 versus k = 1. -/
theorem idw_k_saturation_witness :
    idw_interpolate stableArgsort [Station.mk 0 1 (fun _ => some 5)] 0 0 "value" 2 2 =
      idw_interpolate stableArgsort [Station.mk 0 1 (fun _ => some 5)] 0 0 "value" 1 2 := by
  have h := idw_k_saturation stableArgsort stableArgsort_valid
    [Station.mk 0 1 (fun _ => some 5)] 0 0 "value" 2 2 (by norm_num)
  simpa using h

/-- Witness for the amended C2 theorem at a concrete instantiation. -/
theorem nearest_idx_spec_witness :
    (nearest_idx stableArgsort [(2:ℝ), 1] 1).length = min 1 ([(2:ℝ), 1] : List ℝ).length ∧
    (∀ i ∈ nearest_idx stableArgsort [(2:ℝ), 1] 1, i < ([(2:ℝ), 1] : List ℝ).length) ∧
    (nearest_idx stableArgsort [(2:ℝ), 1] 1).Pairwise
      (fun i j => ([(2:ℝ), 1] : List ℝ).getD i 0 ≤ ([(2:ℝ), 1] : List ℝ).getD j 0) ∧
    ∀ i ∈ nearest_idx stableArgsort [(2:ℝ), 1] 1, ∀ j, j < ([(2:ℝ), 1] : List ℝ).length →
      j ∉ nearest_idx stableArgsort [(2:ℝ), 1] 1 →
      ([(2:ℝ), 1] : List ℝ).getD i 0 ≤ ([(2:ℝ), 1] : List ℝ).getD j 0 :=
  nearest_idx_spec stableArgsort stableArgsort_valid [(2:ℝ), 1] 1

/-- Counterexample to claim C2 as stated: argsortBad satisfies np.argsort's
full documented contract, yet it does not break ties by input order, and
with it idw_interpolate on two equidistant stations with k = 1 returns the
later station's value 30 where the stable tie-break would return 10.  The
source therefore does not determine a stable tie-break: which equal-distance
stations enter the k-subset depends on the sort's unspecified tie order. -/
theorem stable_tiebreak_counterexample :
    (∀ ds, IsArgsortOf ds (argsortBad ds)) ∧
    ¬ StableTieBreak argsortBad ∧
    idw_interpolate argsortBad
      [Station.mk 0 1 (fun _ => some 10), Station.mk 0 (-1) (fun _ => some 30)]
      0 0 "value" 1 2 = some 30 ∧
    idw_interpolate stableArgsort
      [Station.mk 0 1 (fun _ => some 10), Station.mk 0 (-1) (fun _ => some 30)]
      0 0 "value" 1 2 = some 10 ∧
    stationDist 0 0 (Station.mk 0 1 (fun _ => some 10)) =
      stationDist 0 0 (Station.mk 0 (-1) (fun _ => some 30)) := by
  have hd1 : stationDist 0 0 (Station.mk 0 1 (fun _ => some (10:ℝ))) = 1 := by
    simp only [stationDist]
    norm_num [Real.sqrt_one]
  have hd2 : stationDist 0 0 (Station.mk 0 (-1) (fun _ => some (30:ℝ))) = 1 := by
    simp only [stationDist]
    norm_num [Real.sqrt_one]
  have habad : argsortBad [(1:ℝ), 1] = [1, 0] := by
    rw [argsortBad, if_pos ⟨by norm_num, by simp⟩]
  have hastable : stableArgsort [(1:ℝ), 1] = [0, 1] := by
    rw [stableArgsort]
    have h2 : List.range ([(1:ℝ), 1]).length = [0, 1] := rfl
    rw [h2, insertionArgsort, insertionArgsort, insertionArgsort, insertByDist,
      insertByDist, if_neg (by simp)]
  have hds : dists [Station.mk 0 1 (fun _ => some (10:ℝ)),
      Station.mk 0 (-1) (fun _ => some (30:ℝ))] 0 0 = [1, 1] := by
    rw [dists, List.map_cons, List.map_cons, List.map_nil, hd1, hd2]
  have hfz : firstZeroDist 0 0 [Station.mk 0 1 (fun _ => some (10:ℝ)),
      Station.mk 0 (-1) (fun _ => some (30:ℝ))] = Option.none := by
    rw [firstZeroDist, if_neg (by rw [hd1]; norm_num), firstZeroDist,
      if_neg (by rw [hd2]; norm_num), firstZeroDist]
  refine ⟨argsortBad_valid, ?_, ?_, ?_, by rw [hd1, hd2]⟩
  · intro h
    have hmem : (1:ℕ) ∈ nearest_idx argsortBad [(1:ℝ), 1] 1 := by
      rw [nearest_idx, habad]
      simp
    have h0 := h [1, 1] 1 0 1 (by norm_num) (by norm_num) (by simp) hmem
    rw [nearest_idx, habad] at h0
    simp at h0
  · have hni : nearest_idx argsortBad (dists [Station.mk 0 1 (fun _ => some (10:ℝ)),
        Station.mk 0 (-1) (fun _ => some (30:ℝ))] 0 0) 1 = [1] := by
      rw [hds, nearest_idx, habad]
      rfl
    have hns : nearestStations argsortBad [Station.mk 0 1 (fun _ => some (10:ℝ)),
        Station.mk 0 (-1) (fun _ => some (30:ℝ))] 0 0 1 =
        [Station.mk 0 (-1) (fun _ => some (30:ℝ))] := by
      rw [nearestStations, hni]
      rfl
    have hvp : validPairs argsortBad [Station.mk 0 1 (fun _ => some (10:ℝ)),
        Station.mk 0 (-1) (fun _ => some (30:ℝ))] 0 0 "value" 1 = [((1:ℝ), 30)] := by
      rw [validPairs, hns, List.filterMap_cons, List.filterMap_nil]
      simp [hd2]
    rw [idw_no_coincidence hfz]
    rw [if_neg (by rw [hvp]; simp)]
    simp only [rawWeightSum]
    rw [hvp]
    norm_num
  · have hni : nearest_idx stableArgsort (dists [Station.mk 0 1 (fun _ => some (10:ℝ)),
        Station.mk 0 (-1) (fun _ => some (30:ℝ))] 0 0) 1 = [0] := by
      rw [hds, nearest_idx, hastable]
      rfl
    have hns : nearestStations stableArgsort [Station.mk 0 1 (fun _ => some (10:ℝ)),
        Station.mk 0 (-1) (fun _ => some (30:ℝ))] 0 0 1 =
        [Station.mk 0 1 (fun _ => some (10:ℝ))] := by
      rw [nearestStations, hni]
      rfl
    have hvp : validPairs stableArgsort [Station.mk 0 1 (fun _ => some (10:ℝ)),
        Station.mk 0 (-1) (fun _ => some (30:ℝ))] 0 0 "value" 1 = [((1:ℝ), 10)] := by
      rw [validPairs, hns, List.filterMap_cons, List.filterMap_nil]
      simp [hd1]
    rw [idw_no_coincidence hfz]
    rw [if_neg (by rw [hvp]; simp)]
    simp only [rawWeightSum]
    rw [hvp]
    norm_num

lemma stableArgsort_one_one : stableArgsort [(1:ℝ), 1] = [0, 1] := by
  rw [stableArgsort]
  have h2 : List.range ([(1:ℝ), 1]).length = [0, 1] := rfl
  rw [h2, insertionArgsort, insertionArgsort, insertionArgsort, insertByDist,
    insertByDist, if_neg (by simp)]

/-- Claim C3 (missing-data rule): with no station at the target, if every
selected nearest station's value is the NaN sentinel the result is NaN
(Option.none) and no error is raised; if the NaN filter leaves exactly one
(distance, value) pair, the result is exactly that value. -/
theorem idw_missing_data (argsortFn : List ℝ → List ℕ)
    (hA : ∀ ds, IsArgsortOf ds (argsortFn ds)) (stations_df : List Station)
    (target_lat target_lon : ℝ) (value_col : String) (k : ℕ) (power : ℤ)
    (hnc : firstZeroDist target_lat target_lon stations_df = Option.none) :
    ((∀ s ∈ nearestStations argsortFn stations_df target_lat target_lon k,
        s.values value_col = Option.none) →
      idw_interpolate argsortFn stations_df target_lat target_lon value_col k power =
        Option.none) ∧
    (∀ d v, validPairs argsortFn stations_df target_lat target_lon value_col k = [(d, v)] →
      idw_interpolate argsortFn stations_df target_lat target_lon value_col k power =
        some v) := by
  constructor
  · intro hall
    have hempty : validPairs argsortFn stations_df target_lat target_lon value_col k = [] := by
      rw [validPairs]
      rw [List.filterMap_eq_nil_iff]
      intro s hs
      rw [hall s hs]
      rfl
    rw [idw_no_coincidence hnc, if_pos hempty]
  · intro d v hvp
    have hdpos : 0 < d := by
      have hmem : (d, v) ∈ validPairs argsortFn stations_df target_lat target_lon value_col k := by
        rw [hvp]
        exact List.mem_singleton_self _
      exact validPairs_pos hnc _ hmem
    have hw : (0:ℝ) < d ^ power := zpow_pos hdpos power
    rw [idw_no_coincidence hnc, if_neg (by rw [hvp]; simp)]
    simp only [rawWeightSum]
    rw [hvp]
    simp only [List.map_cons, List.map_nil, List.sum_cons, List.sum_nil, add_zero]
    rw [div_self (ne_of_gt (one_div_pos.mpr hw)), one_mul]

/-- Witness for C3: two equidistant stations; with both values NaN the
result is NaN, with exactly one defined value 7 the result is 7. -/
theorem idw_missing_data_witness :
    idw_interpolate stableArgsort
      [Station.mk 0 1 (fun _ => Option.none), Station.mk 0 (-1) (fun _ => Option.none)]
      0 0 "value" 2 2 = Option.none ∧
    idw_interpolate stableArgsort
      [Station.mk 0 1 (fun _ => some 7), Station.mk 0 (-1) (fun _ => Option.none)]
      0 0 "value" 2 2 = some 7 := by
  constructor
  · have hd1 : stationDist 0 0 (Station.mk 0 1 (fun _ => (Option.none : Option ℝ))) = 1 := by
      simp only [stationDist]
      norm_num [Real.sqrt_one]
    have hd2 : stationDist 0 0 (Station.mk 0 (-1) (fun _ => (Option.none : Option ℝ))) = 1 := by
      simp only [stationDist]
      norm_num [Real.sqrt_one]
    have hnc : firstZeroDist 0 0 [Station.mk 0 1 (fun _ => (Option.none : Option ℝ)),
        Station.mk 0 (-1) (fun _ => (Option.none : Option ℝ))] = Option.none := by
      rw [firstZeroDist, if_neg (by rw [hd1]; norm_num), firstZeroDist,
        if_neg (by rw [hd2]; norm_num), firstZeroDist]
    refine (idw_missing_data stableArgsort stableArgsort_valid _ 0 0 "value" 2 2 hnc).1 ?_
    intro s hs
    have hmem := mem_of_nearestStations hs
    rcases List.mem_cons.mp hmem with rfl | hmem2
    · rfl
    · rcases List.mem_singleton.mp hmem2 with rfl
      rfl
  · have hd1 : stationDist 0 0 (Station.mk 0 1 (fun _ => some (7:ℝ))) = 1 := by
      simp only [stationDist]
      norm_num [Real.sqrt_one]
    have hd2 : stationDist 0 0 (Station.mk 0 (-1) (fun _ => (Option.none : Option ℝ))) = 1 := by
      simp only [stationDist]
      norm_num [Real.sqrt_one]
    have hnc : firstZeroDist 0 0 [Station.mk 0 1 (fun _ => some (7:ℝ)),
        Station.mk 0 (-1) (fun _ => (Option.none : Option ℝ))] = Option.none := by
      rw [firstZeroDist, if_neg (by rw [hd1]; norm_num), firstZeroDist,
        if_neg (by rw [hd2]; norm_num), firstZeroDist]
    have hds : dists [Station.mk 0 1 (fun _ => some (7:ℝ)),
        Station.mk 0 (-1) (fun _ => (Option.none : Option ℝ))] 0 0 = [1, 1] := by
      rw [dists, List.map_cons, List.map_cons, List.map_nil, hd1, hd2]
    have hni : nearest_idx stableArgsort (dists [Station.mk 0 1 (fun _ => some (7:ℝ)),
        Station.mk 0 (-1) (fun _ => (Option.none : Option ℝ))] 0 0) 2 = [0, 1] := by
      rw [hds, nearest_idx, stableArgsort_one_one]
      rfl
    have hns : nearestStations stableArgsort [Station.mk 0 1 (fun _ => some (7:ℝ)),
        Station.mk 0 (-1) (fun _ => (Option.none : Option ℝ))] 0 0 2 =
        [Station.mk 0 1 (fun _ => some (7:ℝ)),
         Station.mk 0 (-1) (fun _ => (Option.none : Option ℝ))] := by
      rw [nearestStations, hni]
      rfl
    have hvp : validPairs stableArgsort [Station.mk 0 1 (fun _ => some (7:ℝ)),
        Station.mk 0 (-1) (fun _ => (Option.none : Option ℝ))] 0 0 "value" 2 =
        [((1:ℝ), 7)] := by
      rw [validPairs, hns, List.filterMap_cons, List.filterMap_cons, List.filterMap_nil]
      simp [hd1]
    exact (idw_missing_data stableArgsort stableArgsort_valid _ 0 0 "value" 2 2 hnc).2 1 7 hvp

/-- Claim C4 (weight normalization and convex-combination bound): with no
station at the target and at least one surviving (distance, value) pair,
the normalized weights sum to 1, and the returned estimate lies between any
lower and upper bound of the surviving values — in particular within
[min, max] of the defined values among the k selected stations. -/
theorem idw_convex_combination (argsortFn : List ℝ → List ℕ) (stations_df : List Station)
    (target_lat target_lon : ℝ) (value_col : String) (k : ℕ) (power : ℤ)
    (hnc : firstZeroDist target_lat target_lon stations_df = Option.none)
    (hne : validPairs argsortFn stations_df target_lat target_lon value_col k ≠ []) :
    (normWeights argsortFn stations_df target_lat target_lon value_col k power).sum = 1 ∧
    ∃ m, idw_interpolate argsortFn stations_df target_lat target_lon value_col k power =
        some m ∧
      ∀ lo hi, (∀ p ∈ validPairs argsortFn stations_df target_lat target_lon value_col k,
          lo ≤ p.2 ∧ p.2 ≤ hi) → lo ≤ m ∧ m ≤ hi := by
  have hW : 0 < rawWeightSum argsortFn stations_df target_lat target_lon value_col k power :=
    rawWeightSum_pos hnc hne
  have hsum1 : (normWeights argsortFn stations_df target_lat target_lon value_col k power).sum
      = 1 := by
    rw [normWeights]
    simp only [div_eq_mul_inv]
    rw [List.sum_map_mul_right]
    exact mul_inv_cancel₀ (ne_of_gt hW)
  refine ⟨hsum1, ?_⟩
  refine ⟨_, by rw [idw_no_coincidence hnc, if_neg hne], ?_⟩
  intro lo hi hb
  have hwnn : ∀ p ∈ validPairs argsortFn stations_df target_lat target_lon value_col k,
      0 ≤ 1 / p.1 ^ power /
        rawWeightSum argsortFn stations_df target_lat target_lon value_col k power := by
    intro p hp
    have hp1 : 0 < p.1 := validPairs_pos hnc p hp
    have := zpow_pos hp1 power
    positivity
  have hconst : ∀ c : ℝ,
      ((validPairs argsortFn stations_df target_lat target_lon value_col k).map
        (fun p => 1 / p.1 ^ power /
          rawWeightSum argsortFn stations_df target_lat target_lon value_col k power * c)).sum
      = c := by
    intro c
    rw [List.sum_map_mul_right]
    have : ((validPairs argsortFn stations_df target_lat target_lon value_col k).map
        (fun p => 1 / p.1 ^ power /
          rawWeightSum argsortFn stations_df target_lat target_lon value_col k power)).sum
        = 1 := hsum1
    rw [this, one_mul]
  constructor
  · have h1 : ((validPairs argsortFn stations_df target_lat target_lon value_col k).map
        (fun p => 1 / p.1 ^ power /
          rawWeightSum argsortFn stations_df target_lat target_lon value_col k power * lo)).sum
        ≤ ((validPairs argsortFn stations_df target_lat target_lon value_col k).map
        (fun p => 1 / p.1 ^ power /
          rawWeightSum argsortFn stations_df target_lat target_lon value_col k power * p.2)).sum := by
      apply List.sum_le_sum
      intro p hp
      exact mul_le_mul_of_nonneg_left (hb p hp).1 (hwnn p hp)
    have h2 := hconst lo
    linarith
  · have h1 : ((validPairs argsortFn stations_df target_lat target_lon value_col k).map
        (fun p => 1 / p.1 ^ power /
          rawWeightSum argsortFn stations_df target_lat target_lon value_col k power * p.2)).sum
        ≤ ((validPairs argsortFn stations_df target_lat target_lon value_col k).map
        (fun p => 1 / p.1 ^ power /
          rawWeightSum argsortFn stations_df target_lat target_lon value_col k power * hi)).sum := by
      apply List.sum_le_sum
      intro p hp
      exact mul_le_mul_of_nonneg_left (hb p hp).2 (hwnn p hp)
    have h2 := hconst hi
    linarith

/-- Witness for C4: two equidistant stations with values 10 and 30, k = 2,
power = 2. -/
theorem idw_convex_combination_witness :
    (normWeights stableArgsort
      [Station.mk 0 1 (fun _ => some 10), Station.mk 0 (-1) (fun _ => some 30)]
      0 0 "value" 2 2).sum = 1 ∧
    ∃ m, idw_interpolate stableArgsort
        [Station.mk 0 1 (fun _ => some 10), Station.mk 0 (-1) (fun _ => some 30)]
        0 0 "value" 2 2 = some m ∧
      ∀ lo hi, (∀ p ∈ validPairs stableArgsort
          [Station.mk 0 1 (fun _ => some 10), Station.mk 0 (-1) (fun _ => some 30)]
          0 0 "value" 2, lo ≤ p.2 ∧ p.2 ≤ hi) → lo ≤ m ∧ m ≤ hi := by
  have hd1 : stationDist 0 0 (Station.mk 0 1 (fun _ => some (10:ℝ))) = 1 := by
    simp only [stationDist]
    norm_num [Real.sqrt_one]
  have hd2 : stationDist 0 0 (Station.mk 0 (-1) (fun _ => some (30:ℝ))) = 1 := by
    simp only [stationDist]
    norm_num [Real.sqrt_one]
  have hnc : firstZeroDist 0 0 [Station.mk 0 1 (fun _ => some (10:ℝ)),
      Station.mk 0 (-1) (fun _ => some (30:ℝ))] = Option.none := by
    rw [firstZeroDist, if_neg (by rw [hd1]; norm_num), firstZeroDist,
      if_neg (by rw [hd2]; norm_num), firstZeroDist]
  have hds : dists [Station.mk 0 1 (fun _ => some (10:ℝ)),
      Station.mk 0 (-1) (fun _ => some (30:ℝ))] 0 0 = [1, 1] := by
    rw [dists, List.map_cons, List.map_cons, List.map_nil, hd1, hd2]
  have hni : nearest_idx stableArgsort (dists [Station.mk 0 1 (fun _ => some (10:ℝ)),
      Station.mk 0 (-1) (fun _ => some (30:ℝ))] 0 0) 2 = [0, 1] := by
    rw [hds, nearest_idx, stableArgsort_one_one]
    rfl
  have hns : nearestStations stableArgsort [Station.mk 0 1 (fun _ => some (10:ℝ)),
      Station.mk 0 (-1) (fun _ => some (30:ℝ))] 0 0 2 =
      [Station.mk 0 1 (fun _ => some (10:ℝ)), Station.mk 0 (-1) (fun _ => some (30:ℝ))] := by
    rw [nearestStations, hni]
    rfl
  have hvp : validPairs stableArgsort [Station.mk 0 1 (fun _ => some (10:ℝ)),
      Station.mk 0 (-1) (fun _ => some (30:ℝ))] 0 0 "value" 2 =
      [((1:ℝ), 10), ((1:ℝ), 30)] := by
    rw [validPairs, hns, List.filterMap_cons, List.filterMap_cons, List.filterMap_nil]
    simp [hd1, hd2]
  exact idw_convex_combination stableArgsort
    [Station.mk 0 1 (fun _ => some 10), Station.mk 0 (-1) (fun _ => some 30)]
    0 0 "value" 2 2 hnc (by rw [hvp]; simp)

lemma perm_pair_nat : ∀ l : List ℕ, l.Perm [0, 1] → l = [0, 1] ∨ l = [1, 0] := by
  intro l h
  have hlen : l.length = 2 := h.length_eq
  match l, hlen with
  | [a, b], _ =>
    have ha : a ∈ ([0, 1] : List ℕ) := h.mem_iff.mp (List.mem_cons_self a [b])
    rcases List.mem_cons.mp ha with rfl | ha1
    · left
      have hb : ([b] : List ℕ).Perm [1] := (List.perm_cons 0).mp h
      rw [List.perm_singleton.mp hb]
    · rcases List.mem_singleton.mp ha1 with rfl
      right
      have hswap : ([0, 1] : List ℕ).Perm [1, 0] := List.Perm.swap 1 0 []
      have hb : ([b] : List ℕ).Perm [0] := (List.perm_cons 1).mp (h.trans hswap)
      rw [List.perm_singleton.mp hb]

lemma idw_sum_pair_equal (d x y : ℝ) (power : ℤ) (hd : 0 < d) :
    (([(d, x), (d, y)] : List (ℝ × ℝ)).map
      (fun p => 1 / p.1 ^ power /
        (([(d, x), (d, y)] : List (ℝ × ℝ)).map (fun p => 1 / p.1 ^ power)).sum * p.2)).sum
      = (x + y) / 2 := by
  have hw : (0:ℝ) < d ^ power := zpow_pos hd power
  simp only [List.map_cons, List.map_nil, List.sum_cons, List.sum_nil, add_zero]
  rw [div_add_div_same]
  have h2 : (1 + 1 : ℝ) / d ^ power = 2 / d ^ power := by norm_num
  have h3 : (1:ℝ) / d ^ power / (2 / d ^ power) = 1 / 2 := by
    field_simp
  rw [h2, h3]
  ring

/-- Claim C6 (symmetry): for any contract-compliant argsort instantiation,
two stations at equal nonzero distance from the target with defined values
a and b, k = 2 and any power give exactly (a + b) / 2. -/
theorem idw_symmetric_average (argsortFn : List ℝ → List ℕ)
    (hA : ∀ ds, IsArgsortOf ds (argsortFn ds)) (s1 s2 : Station)
    (target_lat target_lon : ℝ) (value_col : String) (power : ℤ) (a b : ℝ)
    (hd : stationDist target_lat target_lon s1 = stationDist target_lat target_lon s2)
    (h0 : stationDist target_lat target_lon s1 ≠ 0)
    (ha : s1.values value_col = some a) (hb : s2.values value_col = some b) :
    idw_interpolate argsortFn [s1, s2] target_lat target_lon value_col 2 power =
      some ((a + b) / 2) := by
  have hd2 : stationDist target_lat target_lon s2 = stationDist target_lat target_lon s1 :=
    hd.symm
  have hdpos : 0 < stationDist target_lat target_lon s1 :=
    lt_of_le_of_ne (Real.sqrt_nonneg _) (Ne.symm h0)
  have hnc : firstZeroDist target_lat target_lon [s1, s2] = Option.none := by
    rw [firstZeroDist, if_neg h0, firstZeroDist, if_neg (by rw [hd2]; exact h0), firstZeroDist]
  have hds : dists [s1, s2] target_lat target_lon =
      [stationDist target_lat target_lon s1, stationDist target_lat target_lon s1] := by
    rw [dists, List.map_cons, List.map_cons, List.map_nil, hd2]
  have hperm : (argsortFn (dists [s1, s2] target_lat target_lon)).Perm [0, 1] := by
    have hp := (hA (dists [s1, s2] target_lat target_lon)).1
    have hr : List.range (dists [s1, s2] target_lat target_lon).length = [0, 1] := by
      rw [dists, List.length_map]
      rfl
    rw [hr] at hp
    exact hp
  rcases perm_pair_nat _ hperm with hcase | hcase
  · have hni : nearest_idx argsortFn (dists [s1, s2] target_lat target_lon) 2 = [0, 1] := by
      rw [nearest_idx, hcase]
      rfl
    have hns : nearestStations argsortFn [s1, s2] target_lat target_lon 2 = [s1, s2] := by
      rw [nearestStations, hni]
      rfl
    have hvp : validPairs argsortFn [s1, s2] target_lat target_lon value_col 2 =
        [(stationDist target_lat target_lon s1, a), (stationDist target_lat target_lon s1, b)] := by
      rw [validPairs, hns, List.filterMap_cons, List.filterMap_cons, List.filterMap_nil,
        ha, hb, hd2]
      rfl
    rw [idw_no_coincidence hnc, if_neg (by rw [hvp]; simp)]
    simp only [rawWeightSum]
    rw [hvp, idw_sum_pair_equal _ a b power hdpos]
  · have hni : nearest_idx argsortFn (dists [s1, s2] target_lat target_lon) 2 = [1, 0] := by
      rw [nearest_idx, hcase]
      rfl
    have hns : nearestStations argsortFn [s1, s2] target_lat target_lon 2 = [s2, s1] := by
      rw [nearestStations, hni]
      rfl
    have hvp : validPairs argsortFn [s1, s2] target_lat target_lon value_col 2 =
        [(stationDist target_lat target_lon s1, b), (stationDist target_lat target_lon s1, a)] := by
      rw [validPairs, hns, List.filterMap_cons, List.filterMap_cons, List.filterMap_nil,
        ha, hb, hd2]
      rfl
    rw [idw_no_coincidence hnc, if_neg (by rw [hvp]; simp)]
    simp only [rawWeightSum]
    rw [hvp, idw_sum_pair_equal _ b a power hdpos, add_comm b a]

/-- Witness for C6, with the spec's symmetric-average scenario: stations
[(0.0, -1.0, 10.0), (0.0, 1.0, 30.0)], target (0.0, 0.0), k = 2, power = 2
give 20.0. -/
theorem idw_symmetric_average_witness :
    idw_interpolate stableArgsort
      [Station.mk 0 (-1) (fun _ => some 10), Station.mk 0 1 (fun _ => some 30)]
      0 0 "value" 2 2 = some 20 := by
  have h := idw_symmetric_average stableArgsort stableArgsort_valid
    (Station.mk 0 (-1) (fun _ => some 10)) (Station.mk 0 1 (fun _ => some 30))
    0 0 "value" 2 10 30
    (by simp only [stationDist]; norm_num)
    (by simp only [stationDist]; norm_num [Real.sqrt_one])
    rfl rfl
  norm_num at h
  exact h

/-- A Python float value as produced by float(): a finite value (modelled
as an exact rational; binary rounding and overflow-to-inf of large decimal
literals are not modelled), a signed infinity, or nan. -/
inductive PyFloat where
  | finite (q : ℚ)
  | inf (neg : Bool)
  | nan
deriving DecidableEq

/-- Numeric value of a parsed finite float literal: sign, the concatenated
integer-and-fraction digits mant, the fraction length, and the signed
decimal exponent. -/
def finVal (neg : Bool) (mant fracLen : ℕ) (eneg : Bool) (ev : ℕ) : ℚ :=
  (if neg then -1 else 1) * ((mant : ℚ) / 10 ^ fracLen) *
    10 ^ (if eneg then -(ev : ℤ) else (ev : ℤ))

def isPyDigit (c : Char) : Bool := c.isDigit

def digitVal (c : Char) : ℕ := c.toNat - '0'.toNat

def digitsToNat (cs : List Char) : ℕ := cs.foldl (fun a c => 10 * a + digitVal c) 0

/-- The whitespace characters stripped by Python's float() and str.strip()
(ASCII fragment). -/
def pyWS (c : Char) : Bool :=
  c == ' ' || c == '\t' || c == '\n' || c == '\r' || c == '\x0b' || c == '\x0c'

/-- str.strip(): drop whitespace from both ends. -/
def pyStrip (cs : List Char) : List Char :=
  ((cs.dropWhile pyWS).reverse.dropWhile pyWS).reverse

/-- PEP-515 underscore validation of Python's float(): every underscore
must be directly preceded and followed by a digit. -/
def underscoresOKAux : Option Char → List Char → Bool
  | _, [] => true
  | prev, c :: rest =>
    if c == '_' then
      (match prev, rest with
        | some p, d :: _ => isPyDigit p && isPyDigit d
        | _, _ => false) && underscoresOKAux (some c) rest
    else underscoresOKAux (some c) rest

def splitSign : List Char → Bool × List Char
  | [] => (false, [])
  | c :: r =>
    if c == '+' then (false, r)
    else if c == '-' then (true, r)
    else (false, c :: r)

def lowerEq (cs pat : List Char) : Bool := cs.map Char.toLower == pat

/-- Optional exponent part of a float literal: empty, or e/E, an optional
sign and at least one digit, consuming the whole rest. -/
def parseExpPart (neg : Bool) (mant fracLen : ℕ) : List Char → Option PyFloat
  | [] => some (PyFloat.finite (finVal neg mant fracLen false 0))
  | e :: r =>
    if e == 'e' || e == 'E' then
      let sp := splitSign r
      let ed := sp.2.takeWhile isPyDigit
      let r2 := sp.2.dropWhile isPyDigit
      if ed.isEmpty || !r2.isEmpty then Option.none
      else some (PyFloat.finite (finVal neg mant fracLen sp.1 (digitsToNat ed)))
    else Option.none

/-- Body of a float literal after the sign: inf / infinity / nan
(case-insensitive) or digits with an optional dot, fraction and exponent;
at least one digit must occur before the exponent. -/
def parseFloatBody (neg : Bool) (cs : List Char) : Option PyFloat :=
  if lowerEq cs ['i', 'n', 'f'] || lowerEq cs ['i', 'n', 'f', 'i', 'n', 'i', 't', 'y'] then
    some (PyFloat.inf neg)
  else if lowerEq cs ['n', 'a', 'n'] then some PyFloat.nan
  else
    let ip := cs.takeWhile isPyDigit
    let r1 := cs.dropWhile isPyDigit
    if r1.head? = some '.' then
      let r2 := r1.tail
      let fp := r2.takeWhile isPyDigit
      let r3 := r2.dropWhile isPyDigit
      if ip.isEmpty && fp.isEmpty then Option.none
      else parseExpPart neg (digitsToNat (ip ++ fp)) fp.length r3
    else
      if ip.isEmpty then Option.none
      else parseExpPart neg (digitsToNat ip) 0 r1

/-- Python's float() applied to a string: strip whitespace, validate and
remove underscores, take an optional sign, then parse the body; Option.none
is a raised ValueError. -/
def pyFloatOfChars (cs : List Char) : Option PyFloat :=
  let s := pyStrip cs
  if underscoresOKAux Option.none s then
    let sp := splitSign (s.filter (fun c => !(c == '_')))
    parseFloatBody sp.1 sp.2
  else Option.none

/-- A raw coordinate input of parse_coords: a string, an already-numeric
value (Python int or float), or Python None. -/
inductive PyVal where
  | str (s : List Char)
  | num (f : PyFloat)
  | none
deriving DecidableEq

/-- Python's float() applied to a parse_coords argument; Option.none on the
raised ValueError (bad string) or TypeError (None). -/
def pyFloatOfVal : PyVal → Option PyFloat
  | PyVal.str s => pyFloatOfChars s
  | PyVal.num f => some f
  | PyVal.none => Option.none

/-- easting_raw.split("/", 1): the part before the first slash and the part
after it. -/
def splitFirstSlash : List Char → List Char × List Char
  | [] => ([], [])
  | c :: r =>
    if c == '/' then ([], r)
    else
      let p := splitFirstSlash r
      (c :: p.1, p.2)

/-- Case A of parse_coords: a single string containing a slash; both halves
are stripped and converted, any failure yields (None, None). -/
def parseSlashA (s : List Char) : Option PyFloat × Option PyFloat :=
  let p := splitFirstSlash s
  match pyFloatOfChars (pyStrip p.1), pyFloatOfChars (pyStrip p.2) with
  | some a, some b => (some a, some b)
  | _, _ => (Option.none, Option.none)

/-- Cases B and C of parse_coords: both separate values must be present,
then both must convert; any failure yields (None, None). -/
def parse_coords_sep (e n : PyVal) : Option PyFloat × Option PyFloat :=
  match e, n with
  | PyVal.none, PyVal.none => (Option.none, Option.none)
  | PyVal.none, _ => (Option.none, Option.none)
  | _, PyVal.none => (Option.none, Option.none)
  | _, _ =>
    match pyFloatOfVal e, pyFloatOfVal n with
    | some a, some b => (some a, some b)
    | _, _ => (Option.none, Option.none)

/-- parse_coords of lib_geocoordinates.py. -/
def parse_coords (easting_raw northing_raw : PyVal) : Option PyFloat × Option PyFloat :=
  match easting_raw with
  | PyVal.str s =>
    if '/' ∈ s then parseSlashA s
    else parse_coords_sep (PyVal.str s) northing_raw
  | e => parse_coords_sep e northing_raw

example : pyFloatOfChars ['1', '.', '5'] = some (PyFloat.finite (finVal false 15 1 false 0)) := rfl
example : finVal false 15 1 false 0 = 3 / 2 := by norm_num [finVal]
example : pyFloatOfChars [' ', '-', '1', '2', '.', '2', '5', 'e', '-', '1', ' '] =
    some (PyFloat.finite (finVal true 1225 2 true 1)) := rfl
example : finVal true 1225 2 true 1 = -49 / 40 := by norm_num [finVal]
example : pyFloatOfChars ['i', 'n', 'f'] = some (PyFloat.inf false) := rfl
example : pyFloatOfChars ['I', 'n', 'f', 'i', 'n', 'i', 't', 'y'] = some (PyFloat.inf false) := rfl
example : pyFloatOfChars ['-', 'I', 'N', 'F'] = some (PyFloat.inf true) := rfl
example : pyFloatOfChars ['n', 'a', 'n'] = some PyFloat.nan := rfl
example : pyFloatOfChars ['1', '_', '0'] = some (PyFloat.finite (finVal false 10 0 false 0)) := rfl
example : pyFloatOfChars ['_', '1'] = Option.none := rfl
example : pyFloatOfChars ['1', '_'] = Option.none := rfl
example : pyFloatOfChars ['1', '_', '.', '5'] = Option.none := rfl
example : pyFloatOfChars [] = Option.none := rfl
example : pyFloatOfChars ['.'] = Option.none := rfl
example : pyFloatOfChars ['+'] = Option.none := rfl
example : pyFloatOfChars ['1', 'e'] = Option.none := rfl
example : pyFloatOfChars ['.', '5'] = some (PyFloat.finite (finVal false 5 1 false 0)) := rfl
example : pyFloatOfChars ['1', '.'] = some (PyFloat.finite (finVal false 1 0 false 0)) := rfl
example : pyFloatOfChars ['e', '5'] = Option.none := rfl
example : pyFloatOfChars ['1', '/', '2'] = Option.none := rfl
example : pyFloatOfChars ['1', '.', 'e', '5'] = some (PyFloat.finite (finVal false 1 0 false 5)) := rfl
example : pyFloatOfChars ['1', ' ', '5'] = Option.none := rfl
example : parse_coords (PyVal.str ['1', '/', '2']) PyVal.none =
    (some (PyFloat.finite (finVal false 1 0 false 0)),
     some (PyFloat.finite (finVal false 2 0 false 0))) := rfl
example : parse_coords (PyVal.str ['a', '/', 'b']) PyVal.none = (Option.none, Option.none) := rfl
example : parse_coords (PyVal.num (PyFloat.finite 1)) PyVal.none = (Option.none, Option.none) := rfl
example : parse_coords PyVal.none (PyVal.num (PyFloat.finite 1)) = (Option.none, Option.none) := rfl

/-- The encoding-(a) trigger of parse_coords: the primary argument is a
string containing a slash. -/
def SlashString : PyVal → Prop
  | PyVal.str s => '/' ∈ s
  | _ => False

/-- A parse_coords argument convertible to a FINITE float. -/
def FiniteConvertible (v : PyVal) : Prop :=
  ∃ q : ℚ, pyFloatOfVal v = some (PyFloat.finite q)

/-- Claim C10 (delimiter string shadows the second argument): whenever the
primary argument is a string containing a slash, the secondary argument is
ignored: the result is the slash-string parse alone — whose failure value
is (None, None), with no fallback to the separate-values encoding. -/
theorem parse_coords_slash_shadows (s : List Char) (v : PyVal) (h : '/' ∈ s) :
    parse_coords (PyVal.str s) v = parseSlashA s ∧
    ∀ w, parse_coords (PyVal.str s) v = parse_coords (PyVal.str s) w := by
  have h1 : ∀ u : PyVal, parse_coords (PyVal.str s) u = parseSlashA s := by
    intro u
    rw [parse_coords, if_pos h]
  exact ⟨h1 v, fun w => (h1 v).trans (h1 w).symm⟩

/-- Witness for C10: an unparseable slash string with an inconsistent
numeric secondary argument. -/
theorem parse_coords_slash_shadows_witness :
    parse_coords (PyVal.str ['a', '/', 'b']) (PyVal.num (PyFloat.finite 1)) =
      parseSlashA ['a', '/', 'b'] ∧
    parse_coords (PyVal.str ['a', '/', 'b']) (PyVal.num (PyFloat.finite 1)) =
      parse_coords (PyVal.str ['a', '/', 'b']) (PyVal.num (PyFloat.finite 2)) := by
  have h := parse_coords_slash_shadows ['a', '/', 'b'] (PyVal.num (PyFloat.finite 1))
    (by decide)
  exact ⟨h.1, h.2 (PyVal.num (PyFloat.finite 2))⟩

/-- Counterexample to claim C7 as stated: the string inf is NOT convertible
to a finite float, yet parse_coords given two separate values inf and 1
returns a coordinate pair (inf, 1.0) — Python's float() accepts the
non-finite literals inf, infinity and nan, and parse_coords checks nothing
further. -/
theorem parse_coords_finite_counterexample :
    parse_coords (PyVal.str ['i', 'n', 'f']) (PyVal.str ['1']) =
      (some (PyFloat.inf false), some (PyFloat.finite (finVal false 1 0 false 0))) ∧
    ¬ FiniteConvertible (PyVal.str ['i', 'n', 'f']) := by
  refine ⟨rfl, ?_⟩
  rintro ⟨q, hq⟩
  have hv : pyFloatOfVal (PyVal.str ['i', 'n', 'f']) = some (PyFloat.inf false) := rfl
  rw [hv] at hq
  simp at hq

lemma parse_coords_sep_spec (e n : PyVal) :
    parse_coords_sep e n =
      match pyFloatOfVal e, pyFloatOfVal n with
      | some a, some b => (some a, some b)
      | _, _ => (Option.none, Option.none) := by
  cases e with
  | none => cases n <;> rfl
  | str s =>
    cases n with
    | none =>
      cases h : pyFloatOfVal (PyVal.str s) with
      | none => rfl
      | some a => rfl
    | str t => rfl
    | num f => rfl
  | num f =>
    cases n with
    | none => rfl
    | str t => rfl
    | num g => rfl

/-- Claim C7, amended (parser success condition): for two separate values
(primary not a slash string), parse_coords returns a coordinate pair
exactly when BOTH values are convertible to a float — finiteness is not
checked, so the non-finite literals inf/infinity/nan and non-finite numeric
arguments are accepted; if either value is absent the result is the
no-result pair (None, None); the result is never partial; the model is a
total function, so no exception reaches the caller. -/
theorem parse_coords_success_condition (e n : PyVal) (hns : ¬ SlashString e) :
    ((e = PyVal.none ∨ n = PyVal.none) →
      parse_coords e n = (Option.none, Option.none)) ∧
    ((∃ a b, parse_coords e n = (some a, some b)) ↔
      ((pyFloatOfVal e).isSome ∧ (pyFloatOfVal n).isSome)) ∧
    ((parse_coords e n).1 = Option.none ↔ (parse_coords e n).2 = Option.none) := by
  have hsep : parse_coords e n = parse_coords_sep e n := by
    cases e with
    | str s =>
      have hs : ¬ ('/' ∈ s) := hns
      rw [parse_coords, if_neg hs]
    | num f => rfl
    | none => rfl
  rw [hsep, parse_coords_sep_spec]
  cases hve : pyFloatOfVal e with
  | none =>
    cases hvn : pyFloatOfVal n with
    | none => simp
    | some b => simp
  | some a =>
    cases hvn : pyFloatOfVal n with
    | none => simp
    | some b =>
      refine ⟨?_, by simp, by simp⟩
      rintro (rfl | rfl)
      · simp [pyFloatOfVal] at hve
      · simp [pyFloatOfVal] at hvn

/-- Witness for the amended C7: a numeric primary with an absent secondary. -/
theorem parse_coords_success_condition_witness :
    ((PyVal.num (PyFloat.finite 2) = PyVal.none ∨ PyVal.none = PyVal.none) →
      parse_coords (PyVal.num (PyFloat.finite 2)) PyVal.none =
        (Option.none, Option.none)) ∧
    ((∃ a b, parse_coords (PyVal.num (PyFloat.finite 2)) PyVal.none = (some a, some b)) ↔
      ((pyFloatOfVal (PyVal.num (PyFloat.finite 2))).isSome ∧
        (pyFloatOfVal PyVal.none).isSome)) ∧
    ((parse_coords (PyVal.num (PyFloat.finite 2)) PyVal.none).1 = Option.none ↔
      (parse_coords (PyVal.num (PyFloat.finite 2)) PyVal.none).2 = Option.none) :=
  parse_coords_success_condition (PyVal.num (PyFloat.finite 2)) PyVal.none (fun h => h)

lemma dropWhile_dropWhile (p : Char → Bool) :
    ∀ l : List Char, (l.dropWhile p).dropWhile p = l.dropWhile p := by
  intro l
  induction l with
  | nil => rfl
  | cons a t ih =>
    by_cases h : p a
    · rw [List.dropWhile_cons, if_pos h, ih]
    · rw [List.dropWhile_cons, if_neg h, List.dropWhile_cons, if_neg h]

lemma head_dropWhile_not (p : Char → Bool) :
    ∀ (l : List Char) (x : Char), (l.dropWhile p).head? = some x → p x = false := by
  intro l
  induction l with
  | nil => intro x hx; exact absurd hx (by simp)
  | cons a t ih =>
    intro x hx
    by_cases h : p a
    · rw [List.dropWhile_cons, if_pos h] at hx
      exact ih x hx
    · rw [List.dropWhile_cons, if_neg h] at hx
      rw [List.head?_cons, Option.some_inj] at hx
      rw [← hx]
      exact Bool.eq_false_iff.mpr h

lemma getLast_dropWhile (p : Char → Bool) :
    ∀ (l : List Char) (x : Char), l.getLast? = some x → p x = false →
      (l.dropWhile p).getLast? = some x := by
  intro l
  induction l with
  | nil => intro x hx; exact absurd hx (by simp)
  | cons a t ih =>
    intro x hx hpx
    cases t with
    | nil =>
      rw [List.getLast?_singleton, Option.some_inj] at hx
      rw [List.dropWhile_cons]
      rw [← hx] at hpx
      rw [if_neg (by rw [hpx]; simp)]
      rw [hx]
      rfl
    | cons b t2 =>
      rw [List.getLast?_cons_cons] at hx
      by_cases h : p a
      · rw [List.dropWhile_cons, if_pos h]
        exact ih x hx hpx
      · rw [List.dropWhile_cons, if_neg h, List.getLast?_cons_cons]
        exact hx

lemma dropWhile_head_not (p : Char → Bool) (l : List Char) (x : Char)
    (hh : l.head? = some x) (hpx : p x = false) : l.dropWhile p = l := by
  cases l with
  | nil => rfl
  | cons a t =>
    rw [List.head?_cons, Option.some_inj] at hh
    rw [List.dropWhile_cons, if_neg (by rw [hh, hpx]; simp)]

lemma pyStrip_idem (cs : List Char) : pyStrip (pyStrip cs) = pyStrip cs := by
  have hstep1 : ((((cs.dropWhile pyWS).reverse.dropWhile pyWS).reverse).dropWhile pyWS) =
      ((cs.dropWhile pyWS).reverse.dropWhile pyWS).reverse := by
    cases hh : ((cs.dropWhile pyWS).reverse.dropWhile pyWS).reverse.head? with
    | none =>
      have hnil := List.head?_eq_none_iff.mp hh
      rw [hnil]
      rfl
    | some x =>
      refine dropWhile_head_not pyWS _ x hh ?_
      have hxlast : ((cs.dropWhile pyWS).reverse.dropWhile pyWS).getLast? = some x := by
        rw [← List.head?_reverse]
        exact hh
      cases hA : cs.dropWhile pyWS with
      | nil =>
        rw [hA] at hxlast
        exact absurd hxlast (by simp)
      | cons a t =>
        have hpa : pyWS a = false := by
          refine head_dropWhile_not pyWS cs a ?_
          rw [hA]
          rfl
        have hAl : (cs.dropWhile pyWS).reverse.getLast? = some a := by
          rw [List.getLast?_reverse, hA]
          rfl
        have hlast2 := getLast_dropWhile pyWS (cs.dropWhile pyWS).reverse a hAl hpa
        rw [hA] at hlast2 hxlast
        rw [hlast2, Option.some_inj] at hxlast
        rw [← hxlast]
        exact hpa
  show ((((((cs.dropWhile pyWS).reverse.dropWhile pyWS).reverse).dropWhile
      pyWS).reverse).dropWhile pyWS).reverse =
    ((cs.dropWhile pyWS).reverse.dropWhile pyWS).reverse
  rw [hstep1, List.reverse_reverse, dropWhile_dropWhile]

lemma pyFloatOfChars_pyStrip (cs : List Char) :
    pyFloatOfChars (pyStrip cs) = pyFloatOfChars cs := by
  simp only [pyFloatOfChars, pyStrip_idem]

lemma mem_dropWhile_of_neg (p : Char → Bool) :
    ∀ (l : List Char) (x : Char), x ∈ l → p x = false → x ∈ l.dropWhile p := by
  intro l
  induction l with
  | nil => intro x hx; exact absurd hx (List.not_mem_nil x)
  | cons a t ih =>
    intro x hx hpx
    by_cases h : p a
    · rw [List.dropWhile_cons, if_pos h]
      rcases List.mem_cons.mp hx with rfl | hx2
      · rw [hpx] at h; exact absurd h (by simp)
      · exact ih x hx2 hpx
    · rw [List.dropWhile_cons, if_neg h]
      exact hx

lemma mem_pyStrip (cs : List Char) (x : Char) (hx : x ∈ cs) (hpx : pyWS x = false) :
    x ∈ pyStrip cs := by
  rw [pyStrip, List.mem_reverse]
  apply mem_dropWhile_of_neg pyWS _ x _ hpx
  rw [List.mem_reverse]
  exact mem_dropWhile_of_neg pyWS cs x hx hpx

lemma mem_splitSign_snd (l : List Char) (x : Char) (hx : x ∈ l)
    (hp : x ≠ '+') (hm : x ≠ '-') : x ∈ (splitSign l).2 := by
  cases l with
  | nil => exact absurd hx (List.not_mem_nil x)
  | cons c r =>
    rw [splitSign]
    by_cases h1 : (c == '+') = true
    · rw [if_pos h1]
      rcases List.mem_cons.mp hx with rfl | hx2
      · exact absurd (eq_of_beq h1) hp
      · exact hx2
    · rw [if_neg h1]
      by_cases h2 : (c == '-') = true
      · rw [if_pos h2]
        rcases List.mem_cons.mp hx with rfl | hx2
        · exact absurd (eq_of_beq h2) hm
        · exact hx2
      · rw [if_neg h2]
        exact hx

lemma mem_dropWhile_digits (l : List Char) (hin : '/' ∈ l) :
    '/' ∈ l.dropWhile isPyDigit := by
  have hsplit := List.takeWhile_append_dropWhile isPyDigit l
  rw [← hsplit] at hin
  rcases List.mem_append.mp hin with htake | hdrop
  · exact absurd (List.mem_takeWhile_imp htake) (by decide)
  · exact hdrop

lemma parseExpPart_none_of_slash (neg : Bool) (mant fracLen : ℕ) :
    ∀ r : List Char, '/' ∈ r → parseExpPart neg mant fracLen r = Option.none := by
  intro r hr
  match r, hr with
  | e :: rest, hr =>
    rw [parseExpPart]
    by_cases he : (e == 'e' || e == 'E') = true
    · rw [if_pos he]
      have hrest : '/' ∈ rest := by
        rcases List.mem_cons.mp hr with heq | h2
        · rw [← heq] at he
          exact absurd he (by decide)
        · exact h2
      have hsnd : '/' ∈ (splitSign rest).2 :=
        mem_splitSign_snd rest '/' hrest (by decide) (by decide)
      have hdrop : '/' ∈ (splitSign rest).2.dropWhile isPyDigit :=
        mem_dropWhile_digits _ hsnd
      have hne : ((splitSign rest).2.dropWhile isPyDigit).isEmpty = false := by
        cases hd : (splitSign rest).2.dropWhile isPyDigit with
        | nil => rw [hd] at hdrop; exact absurd hdrop (List.not_mem_nil _)
        | cons c t => rfl
      rw [if_pos (by rw [hne]; simp)]
    · rw [if_neg he]

lemma lowerEq_no_slash (cs pat : List Char) (hpat : ('/' : Char) ∉ pat)
    (hin : '/' ∈ cs) : lowerEq cs pat = false := by
  cases hx : lowerEq cs pat with
  | false => rfl
  | true =>
    exfalso
    rw [lowerEq] at hx
    have heq : cs.map Char.toLower = pat := eq_of_beq hx
    have hmm : Char.toLower '/' ∈ pat := by
      rw [← heq]
      exact List.mem_map_of_mem Char.toLower hin
    have h47 : Char.toLower '/' = '/' := by decide
    rw [h47] at hmm
    exact hpat hmm

lemma parseFloatBody_none_of_slash (neg : Bool) (cs : List Char) (hin : '/' ∈ cs) :
    parseFloatBody neg cs = Option.none := by
  simp only [parseFloatBody]
  have hi1 : lowerEq cs ['i', 'n', 'f'] = false := lowerEq_no_slash _ _ (by decide) hin
  have hi2 : lowerEq cs ['i', 'n', 'f', 'i', 'n', 'i', 't', 'y'] = false :=
    lowerEq_no_slash _ _ (by decide) hin
  have hi3 : lowerEq cs ['n', 'a', 'n'] = false := lowerEq_no_slash _ _ (by decide) hin
  rw [if_neg (by rw [hi1, hi2]; simp), if_neg (by rw [hi3]; simp)]
  have hr1 : '/' ∈ cs.dropWhile isPyDigit := mem_dropWhile_digits cs hin
  by_cases hdot : (cs.dropWhile isPyDigit).head? = some '.'
  · rw [if_pos hdot]
    have htail : '/' ∈ (cs.dropWhile isPyDigit).tail := by
      cases hshape : cs.dropWhile isPyDigit with
      | nil => rw [hshape] at hr1; exact absurd hr1 (List.not_mem_nil _)
      | cons c r2 =>
        rw [hshape] at hr1 hdot
        rw [List.head?_cons, Option.some_inj] at hdot
        rcases List.mem_cons.mp hr1 with heq | h2
        · rw [← heq] at hdot
          exact absurd hdot (by decide)
        · rw [List.tail_cons]
          exact h2
    have hr3 : '/' ∈ ((cs.dropWhile isPyDigit).tail).dropWhile isPyDigit :=
      mem_dropWhile_digits _ htail
    by_cases hempty : ((cs.takeWhile isPyDigit).isEmpty &&
        (((cs.dropWhile isPyDigit).tail).takeWhile isPyDigit).isEmpty) = true
    · rw [if_pos hempty]
    · rw [if_neg hempty]
      exact parseExpPart_none_of_slash _ _ _ _ hr3
  · rw [if_neg hdot]
    by_cases hempty : (cs.takeWhile isPyDigit).isEmpty = true
    · rw [if_pos hempty]
    · rw [if_neg hempty]
      exact parseExpPart_none_of_slash _ _ _ _ hr1

lemma pyFloatOfChars_of_slash (cs : List Char) (hin : '/' ∈ cs) :
    pyFloatOfChars cs = Option.none := by
  simp only [pyFloatOfChars]
  have hstripmem : '/' ∈ pyStrip cs := mem_pyStrip cs '/' hin (by decide)
  by_cases hund : underscoresOKAux Option.none (pyStrip cs) = true
  · rw [if_pos hund]
    have hfil : '/' ∈ (pyStrip cs).filter (fun c => !(c == '_')) :=
      List.mem_filter.mpr ⟨hstripmem, by decide⟩
    have hsnd : '/' ∈ (splitSign ((pyStrip cs).filter (fun c => !(c == '_')))).2 :=
      mem_splitSign_snd _ '/' hfil (by decide) (by decide)
    exact parseFloatBody_none_of_slash _ _ hsnd
  · rw [if_neg hund]

/-- A string accepted by float() never contains a slash: the float grammar
has no slash character, so a parsed half of an easting/northing string is
never itself a slash-joined pair. -/
lemma pyFloatOfChars_no_slash (cs : List Char) (f : PyFloat)
    (h : pyFloatOfChars cs = some f) : ('/' : Char) ∉ cs := by
  intro hin
  rw [pyFloatOfChars_of_slash cs hin] at h
  exact absurd h (by simp)

lemma splitFirstSlash_append (se sn : List Char) (h : ('/' : Char) ∉ se) :
    splitFirstSlash (se ++ '/' :: sn) = (se, sn) := by
  induction se with
  | nil => rfl
  | cons a t ih =>
    have ha : a ≠ '/' := fun heq => h (heq ▸ List.mem_cons_self a t)
    have ht : ('/' : Char) ∉ t := fun hmem => h (List.mem_cons_of_mem a hmem)
    rw [List.cons_append]
    simp only [splitFirstSlash]
    rw [if_neg (fun hb => ha (eq_of_beq hb)), ih ht]

lemma parseSlashA_eq (s : List Char) :
    parseSlashA s =
      (match pyFloatOfChars (pyStrip (splitFirstSlash s).1),
          pyFloatOfChars (pyStrip (splitFirstSlash s).2) with
        | some a, some b => (some a, some b)
        | _, _ => (Option.none, Option.none)) := rfl

/-- Claim C8 (parser round-trip): for every valid coordinate pair — i.e.
string representations se and sn that float() accepts, with values fe and
fn — parsing the combined string se/sn with the second argument absent
yields the same result as parsing the two values supplied separately. -/
theorem parse_coords_roundtrip (se sn : List Char) (fe fn : PyFloat)
    (he : pyFloatOfChars se = some fe) (hn : pyFloatOfChars sn = some fn) :
    parse_coords (PyVal.str (se ++ '/' :: sn)) PyVal.none =
      parse_coords (PyVal.num fe) (PyVal.num fn) := by
  have hse : ('/' : Char) ∉ se := pyFloatOfChars_no_slash se fe he
  have hmem : '/' ∈ se ++ '/' :: sn := List.mem_append_right se (List.mem_cons_self _ _)
  have hA : pyFloatOfChars (pyStrip (splitFirstSlash (se ++ '/' :: sn)).1) = some fe := by
    rw [splitFirstSlash_append se sn hse, pyFloatOfChars_pyStrip]
    exact he
  have hB : pyFloatOfChars (pyStrip (splitFirstSlash (se ++ '/' :: sn)).2) = some fn := by
    rw [splitFirstSlash_append se sn hse, pyFloatOfChars_pyStrip]
    exact hn
  rw [parse_coords, if_pos hmem, parseSlashA_eq, hA, hB]
  rfl

/-- Witness for C8: the pair of literals 1.5 and 2. -/
theorem parse_coords_roundtrip_witness :
    parse_coords (PyVal.str ['1', '.', '5', '/', '2']) PyVal.none =
      parse_coords (PyVal.num (PyFloat.finite (finVal false 15 1 false 0)))
        (PyVal.num (PyFloat.finite (finVal false 2 0 false 0))) :=
  parse_coords_roundtrip ['1', '.', '5'] ['2'] _ _ rfl rfl

/-- The attrs object of one place-search candidate: featureId (an opaque
identifier; Option.none models a missing key or JSON null), and the lat/lon
entries (outer Option.none models a missing key, PyVal.none a JSON null). -/
structure SearchAttrs where
  featureId : Option (List Char)
  lat : Option PyVal
  lon : Option PyVal

/-- One candidate of the results array; attrs is Option.none when the attrs
key is missing (accessing it raises KeyError, caught by the outer except). -/
structure SearchResult where
  attrs : Option SearchAttrs

/-- The candidate scan of get_wgs84_municipality: walk the results in
service order; skip candidates whose featureId is null; at the first
candidate with a non-null featureId, convert its lat and lon with float()
and return them.  Any exception — missing attrs, missing lat/lon key,
unconvertible lat/lon — aborts the whole lookup with None (the source's
try/except swallows it). -/
def scanResults : List SearchResult → Option (PyFloat × PyFloat)
  | [] => Option.none
  | r :: rest =>
    match r.attrs with
    | Option.none => Option.none
    | some a =>
      match a.featureId with
      | Option.none => scanResults rest
      | some _ =>
        match a.lat with
        | Option.none => Option.none
        | some lv =>
          match pyFloatOfVal lv with
          | Option.none => Option.none
          | some la =>
            match a.lon with
            | Option.none => Option.none
            | some ov =>
              match pyFloatOfVal ov with
              | Option.none => Option.none
              | some lo => some (la, lo)

/-- get_wgs84_municipality of lib_geocoordinates.py, as a function of the
observed service response: Option.none models every request-level failure
(network error, non-2xx raised by raise_for_status, malformed JSON), while
some results carries the parsed results array (a missing results key is
some [] via the .get default). -/
def get_wgs84_municipality (response : Option (List SearchResult)) :
    Option (PyFloat × PyFloat) :=
  match response with
  | Option.none => Option.none
  | some results => scanResults results

/-- Claim C9 (municipality selection rule): the candidates are scanned in
service order and the first one carrying a non-null featureId supplies the
returned (latitude, longitude); if the request fails, or every candidate
(all carrying attrs) has a null featureId, the result is the no-result
variant None — and the model is a total function, so nothing is raised. -/
theorem get_wgs84_municipality_spec :
    (get_wgs84_municipality Option.none = Option.none) ∧
    (∀ (results : List SearchResult) (i : ℕ) (hi : i < results.length)
        (a : SearchAttrs) (fid : List Char) (lv ov : PyVal) (la lo : PyFloat),
      (∀ j (hj : j < i), ∃ aj, (results.get ⟨j, hj.trans hi⟩).attrs = some aj ∧
        aj.featureId = Option.none) →
      (results.get ⟨i, hi⟩).attrs = some a →
      a.featureId = some fid →
      a.lat = some lv → pyFloatOfVal lv = some la →
      a.lon = some ov → pyFloatOfVal ov = some lo →
      get_wgs84_municipality (some results) = some (la, lo)) ∧
    (∀ results : List SearchResult,
      (∀ r ∈ results, ∃ ar, r.attrs = some ar ∧ ar.featureId = Option.none) →
      get_wgs84_municipality (some results) = Option.none) := by
  refine ⟨rfl, ?_, ?_⟩
  · intro results
    induction results with
    | nil => intro i hi; exact absurd hi (by simp)
    | cons r rest ih =>
      intro i hi a fid lv ov la lo hskip hattrs hfid hlat hla hlon hlo
      cases i with
      | zero =>
        simp only [List.get] at hattrs
        show scanResults (r :: rest) = some (la, lo)
        simp only [scanResults, hattrs, hfid, hlat, hla, hlon, hlo]
      | succ m =>
        obtain ⟨a0, ha0, hfid0⟩ := hskip 0 (Nat.succ_pos m)
        simp only [List.get] at ha0
        show scanResults (r :: rest) = some (la, lo)
        simp only [scanResults, ha0, hfid0]
        have hm : m < rest.length := Nat.succ_lt_succ_iff.mp hi
        simp only [List.get] at hattrs
        refine ih m hm a fid lv ov la lo ?_ hattrs hfid hlat hla hlon hlo
        intro j hj
        obtain ⟨aj, haj, hfj⟩ := hskip (j + 1) (Nat.succ_lt_succ hj)
        simp only [List.get] at haj
        exact ⟨aj, haj, hfj⟩
  · intro results hall
    induction results with
    | nil => rfl
    | cons r rest ih =>
      obtain ⟨ar, har, hfr⟩ := hall r (List.mem_cons_self r rest)
      show scanResults (r :: rest) = Option.none
      simp only [scanResults, har, hfr]
      exact ih (fun t ht => hall t (List.mem_cons_of_mem r ht))

/-- Witness for C9, mirroring the repository's own mocked test payload:
the first candidate has a null featureId and is skipped, the second is
Bern with string coordinates 46.948 and 7.447. -/
theorem get_wgs84_municipality_spec_witness :
    get_wgs84_municipality (some
      [SearchResult.mk (some (SearchAttrs.mk Option.none Option.none Option.none)),
       SearchResult.mk (some (SearchAttrs.mk (some ['1', '2', '3'])
         (some (PyVal.str ['4', '6', '.', '9', '4', '8']))
         (some (PyVal.str ['7', '.', '4', '4', '7']))))]) =
      some (PyFloat.finite (finVal false 46948 3 false 0),
        PyFloat.finite (finVal false 7447 3 false 0)) := by
  exact (get_wgs84_municipality_spec).2.1
    [SearchResult.mk (some (SearchAttrs.mk Option.none Option.none Option.none)),
     SearchResult.mk (some (SearchAttrs.mk (some ['1', '2', '3'])
       (some (PyVal.str ['4', '6', '.', '9', '4', '8']))
       (some (PyVal.str ['7', '.', '4', '4', '7']))))]
    1 (by norm_num)
    (SearchAttrs.mk (some ['1', '2', '3'])
      (some (PyVal.str ['4', '6', '.', '9', '4', '8']))
      (some (PyVal.str ['7', '.', '4', '4', '7'])))
    ['1', '2', '3']
    (PyVal.str ['4', '6', '.', '9', '4', '8'])
    (PyVal.str ['7', '.', '4', '4', '7'])
    (PyFloat.finite (finVal false 46948 3 false 0))
    (PyFloat.finite (finVal false 7447 3 false 0))
    (fun j hj => by
      interval_cases j
      exact ⟨SearchAttrs.mk Option.none Option.none Option.none, rfl, rfl⟩)
    rfl rfl rfl rfl rfl rfl
